import Mathlib

/-!
Verification of the MCP stdio client (`src/tmp2/client.py`) and its
session/protocol core.  The script itself supplies the configuration
(`server_params`, the commented-out sampling callback, the sequential
`run()` body); the session, codec and transport layers it drives are
modelled, faithfully to the specification's wording, where the library
code is not part of the sources.
-/

namespace MCPClient

/-! ## Message codec

Modelled from the spec: the Message Codec serializes requests, responses
and notifications; decoding distinguishes the three shapes by the
presence or absence of an id and a method name.  A response carries
either a result or an error. -/

/-- A decoded wire frame: the observable fields a serialized protocol
message can carry.  `none` means the field is absent from the frame. -/
structure Wire where
  id : Option Nat
  method : Option String
  params : Option String
  result : Option String
  error : Option String
  deriving DecidableEq, Repr

/-- A response's payload: a result on success, an error object on
failure. -/
inductive Outcome where
  | ok (result : String)
  | err (error : String)
  deriving DecidableEq, Repr

/-- The three protocol message shapes: Request {id, method, params},
Response {id, result or error}, and an id-less one-way message
{method, params}. -/
inductive Message where
  | request (id : Nat) (method : String) (params : Option String)
  | response (id : Nat) (outcome : Outcome)
  | notif (method : String) (params : Option String)
  deriving DecidableEq, Repr

/-- Modelled from the spec: `encode` maps each message shape onto its
wire fields; absent fields are `none`. -/
def encode : Message → Wire
  | .request i m p => ⟨some i, some m, p, none, none⟩
  | .response i (.ok r) => ⟨some i, none, none, some r, none⟩
  | .response i (.err e) => ⟨some i, none, none, none, some e⟩
  | .notif m p => ⟨none, some m, p, none, none⟩

/-- Modelled from the spec: `decode` distinguishes the three shapes by
presence/absence of an id and a method name, failing (`none`, the
embedding of `MalformedMessage`) on frames that fit no shape. -/
def decode (w : Wire) : Option Message :=
  match w.method, w.id with
  | some m, some i =>
      if w.result = none ∧ w.error = none then some (.request i m w.params) else none
  | some m, none =>
      if w.result = none ∧ w.error = none then some (.notif m w.params) else none
  | none, some i =>
      match w.result, w.error with
      | some r, none => if w.params = none then some (.response i (.ok r)) else none
      | none, some e => if w.params = none then some (.response i (.err e)) else none
      | _, _ => none
  | none, none => none

/-! ## The sampling handler defined in client.py -/

/-- The argument type of the sampling callback: the server-supplied
conversation payload (role/text message pairs plus a free-form prompt
field). -/
structure CreateMessageRequestParams where
  messages : List (String × String)
  systemPrompt : Option String
  deriving DecidableEq, Repr

/-- The completion result the callback returns. -/
structure CreateMessageResult where
  role : String
  contentType : String
  text : String
  model : String
  stopReason : String
  deriving DecidableEq, Repr

/-- `handle_sampling_message` from client.py: returns a fixed
CreateMessageResult whatever the incoming message is. -/
def handle_sampling_message (message : CreateMessageRequestParams) :
    CreateMessageResult :=
  { role := "assistant"
    contentType := "text"
    text := "Hello, world! from model"
    model := "gpt-3.5-turbo"
    stopReason := "endTurn" }

/-! ## Transport establishment (client.py `server_params`, `stdio_client`) -/

/-- `StdioServerParameters` as constructed in client.py: a command name,
an argument list, and an optional environment map. -/
structure StdioServerParameters where
  command : String
  args : List String
  env : Option (List (String × String))
  deriving DecidableEq, Repr

/-- `server_params` from client.py, field for field. -/
def server_params : StdioServerParameters :=
  { command := "uvx"
    args := ["--quiet", "--refresh", "git+https://github.com/emsi/slow-mcp",
             "--transport", "stdio"]
    env := none }

/-- A stream end, identified by which standard stream of which spawned
subprocess it is. -/
inductive StreamEnd where
  | subprocessStdout (command : String) (args : List String)
      (env : Option (List (String × String)))
  | subprocessStdin (command : String) (args : List String)
      (env : Option (List (String × String)))
  deriving DecidableEq, Repr

/-- A Transport: a read end and a write end. -/
structure Transport where
  readEnd : StreamEnd
  writeEnd : StreamEnd
  deriving DecidableEq, Repr

/-- Modelled from the spec: `stdio_client` (mcp library, not in the
sources) starts a subprocess from the command name, argument list and
optional environment map, and the subprocess's stdout/stdin become the
Transport's read/write ends respectively. -/
def stdio_client (p : StdioServerParameters) : Transport :=
  { readEnd := .subprocessStdout p.command p.args p.env
    writeEnd := .subprocessStdin p.command p.args p.env }

/-- The configuration of the ClientSession as constructed in client.py's
`run()`: the two streams from `stdio_client server_params`, a 60-second
read timeout, and no sampling callback (the argument is commented out). -/
structure ClientSessionConfig where
  readStream : StreamEnd
  writeStream : StreamEnd
  readTimeoutSeconds : Nat
  samplingCallback : Option (CreateMessageRequestParams → CreateMessageResult)

/-- The session built by `run()` in client.py. -/
def runSessionConfig : ClientSessionConfig :=
  { readStream := (stdio_client server_params).readEnd
    writeStream := (stdio_client server_params).writeEnd
    readTimeoutSeconds := 60
    samplingCallback := none }

/-! ## Session state machine

Modelled from the spec: the Session owns one connection, tracks
outstanding PendingRequests keyed by correlation id, enforces per-call
timeouts, and resolves each pending call exactly once by whichever of
{matching Response, timeout, connection closure} occurs first.  Ids are
freshly generated, unique among outstanding requests, and never
reused. -/

/-- The session's lifecycle states. -/
inductive Phase where
  | unconnected
  | initializing
  | ready
  | closed
  deriving DecidableEq, Repr

/-- How a pending call resolves: with the matching Response's payload,
with `RequestTimeout`, or with `ConnectionClosed`. -/
inductive Res where
  | response (payload : Outcome)
  | requestTimeout
  | connectionClosed
  deriving DecidableEq, Repr

/-- Session state: lifecycle phase, the correlation ids of outstanding
PendingRequests (in registration order), and every id ever issued (ids
are never reused). -/
structure SessionState where
  phase : Phase
  pending : List Nat
  used : List Nat
  deriving DecidableEq, Repr

/-- Events the session reacts to: registering and transmitting a fresh
request, an inbound Response, a per-call deadline elapsing, transport
closure, and the two handshake transitions (the handshake request being
sent, and its matching response completing it). -/
inductive Event where
  | send (id : Nat)
  | response (id : Nat) (payload : Outcome)
  | timeout (id : Nat)
  | close
  | initStart
  | initOk
  deriving DecidableEq, Repr

/-- Observable outputs of one step: a pending call resolving (exactly
once per id), or an unmatched inbound Response being discarded and
logged. -/
inductive Output where
  | resolved (id : Nat) (r : Res)
  | discarded (id : Nat)
  deriving DecidableEq, Repr

/-- One step of the session.  A Response or timeout for an outstanding
id consumes its PendingRequest; a Response for an unknown id is
discarded (logged) without error; closure resolves every outstanding
PendingRequest with `ConnectionClosed` and ends the session; a send
registers a fresh id while the handshake or an ordinary call is in
flight. -/
def step (s : SessionState) : Event → SessionState × List Output
  | .send i =>
      if (s.phase = .initializing ∨ s.phase = .ready) ∧ i ∉ s.used then
        ({ s with pending := s.pending ++ [i], used := i :: s.used }, [])
      else (s, [])
  | .response i pl =>
      if i ∈ s.pending then
        ({ s with pending := s.pending.erase i }, [.resolved i (.response pl)])
      else (s, [.discarded i])
  | .timeout i =>
      if i ∈ s.pending then
        ({ s with pending := s.pending.erase i }, [.resolved i .requestTimeout])
      else (s, [])
  | .close =>
      ({ phase := .closed, pending := [], used := s.used },
       s.pending.map fun i => .resolved i .connectionClosed)
  | .initStart =>
      if s.phase = .unconnected then ({ s with phase := .initializing }, [])
      else (s, [])
  | .initOk =>
      if s.phase = .initializing then ({ s with phase := .ready }, [])
      else (s, [])

/-- Run a list of events from a state, accumulating outputs. -/
def run (s : SessionState) : List Event → SessionState × List Output
  | [] => (s, [])
  | e :: es =>
      let p := step s e
      let q := run p.1 es
      (q.1, p.2 ++ q.2)

/-- Well-formedness: outstanding ids are pairwise distinct and every
outstanding id has been issued. -/
def WF (s : SessionState) : Prop :=
  s.pending.Nodup ∧ ∀ i ∈ s.pending, i ∈ s.used

instance (s : SessionState) : Decidable (WF s) := by
  unfold WF; infer_instance

/-- How many times the outputs resolve correlation id `i`. -/
def resCount (i : Nat) : List Output → Nat
  | [] => 0
  | .resolved j _ :: rest => (if j = i then 1 else 0) + resCount i rest
  | .discarded _ :: rest => resCount i rest

/-- Bookkeeping measure: how many resolutions of id `i` the state can
still emit (one while `i` is outstanding, one while `i` has never been
issued and so could still be registered once). -/
def potential (i : Nat) (s : SessionState) : Nat :=
  (if i ∈ s.pending then 1 else 0) + (if i ∈ s.used then 0 else 1)

/-- Errors a call can fail with before it is even sent. -/
inductive CallError where
  | sessionNotReady
  | sessionClosed
  deriving DecidableEq, Repr

/-- Modelled from the spec: the facade-level `call` entry point.  In the
`Ready` state it registers a fresh PendingRequest and proceeds; in
`Closed` it fails with `SessionClosed`; before the handshake has
completed it fails with a defined not-ready error rather than
proceeding (the spec's fail-fast choice). -/
def attemptCall (s : SessionState) (i : Nat) : Except CallError SessionState :=
  match s.phase with
  | .ready => .ok { s with pending := s.pending ++ [i], used := i :: s.used }
  | .closed => .error .sessionClosed
  | _ => .error .sessionNotReady

/-! ## The client program (client.py `run()`) -/

/-- The correlated session operations client.py performs.  `handshake`
is `session.initialize()`. -/
inductive Op where
  | handshake
  | listResources
  | listTools
  | callTool (name : String)
  deriving DecidableEq, Repr

/-- The operations `run()` awaits, in program order: initialize, list
resources, list tools, call the tool "run_command". -/
def programOps : List Op :=
  [.handshake, .listResources, .listTools, .callTool "run_command"]

/-- Whether a resolution is a successful matching Response (the only
case in which `run()` proceeds to its next awaited operation). -/
def Res.isResponse : Res → Bool
  | .response _ => true
  | _ => false

/-- The session event by which a pending call with id `i` resolves. -/
def resolveEvt (i : Nat) : Res → Event
  | .response pl => .response i pl
  | .requestTimeout => .timeout i
  | .connectionClosed => .close

/-- The event trace of client.py's sequential awaited calls after the
handshake: each operation sends its request and is awaited to
completion (its resolution arrives) before the next is sent; on a
failed await the program raises and sends nothing further.  `k` bounds
the remaining operations, `n` is the next fresh id, `rs` the outcome of
each successive await. -/
def callTrace : Nat → Nat → List Res → List Event
  | _, _, [] => []
  | 0, _, _ => []
  | Nat.succ k, n, r :: rs =>
      .send n :: resolveEvt n r ::
        (if r.isResponse then callTrace k (n + 1) rs else [])

/-- The whole event trace of one execution of `run()`: the handshake
request is sent and awaited first; only on its success does the session
become Ready and the three remaining operations proceed in order. -/
def progTrace (r0 : Res) (rs : List Res) : List Event :=
  .initStart :: .send 0 :: resolveEvt 0 r0 ::
    (if r0.isResponse then .initOk :: callTrace (programOps.length - 1) 1 rs
     else [])

/-- The session state before `run()` does anything. -/
def initialState : SessionState :=
  { phase := .unconnected, pending := [], used := [] }

/-- The correlation ids of the requests a trace sends, in send order. -/
def sendIds : List Event → List Nat
  | [] => []
  | .send i :: es => i :: sendIds es
  | _ :: es => sendIds es

/-! ## Server-initiated sampling requests -/

/-- The reply the session sends for an inbound server-initiated
request: a result Response or a "not supported" error Response, either
way carrying an id. -/
inductive InboundReply where
  | result (id : Nat) (r : CreateMessageResult)
  | errorNotSupported (id : Nat)
  deriving Repr

/-- The id a reply carries. -/
def replyId : InboundReply → Nat
  | .result i _ => i
  | .errorNotSupported i => i

/-- Modelled from the spec: dispatch of an inbound server-initiated
sampling request.  With a registered callback its result is wrapped in
a Response reusing the inbound id; with no callback a "not supported"
error Response with that id is sent instead.  Dispatch is a total
function producing exactly one reply, so the request is never left
unanswered. -/
def dispatchInbound
    (cb : Option (CreateMessageRequestParams → CreateMessageResult))
    (i : Nat) (p : CreateMessageRequestParams) : InboundReply :=
  match cb with
  | some f => .result i (f p)
  | none => .errorNotSupported i

/-- The shape of a message: 0 = Request, 1 = Response, 2 = id-less
one-way message. -/
def shapeOf : Message → Nat
  | .request _ _ _ => 0
  | .response _ _ => 1
  | .notif _ _ => 2

/-- The shape a wire frame announces purely by presence/absence of its
id and method fields (`none` when it announces no shape at all). -/
def wireShape (w : Wire) : Option Nat :=
  match w.method, w.id with
  | some _, some _ => some 0
  | none, some _ => some 1
  | some _, none => some 2
  | none, none => none

/-! ## Invariant lemmas -/

lemma run_nil (s : SessionState) : run s [] = (s, []) := rfl

lemma run_cons (s : SessionState) (e : Event) (es : List Event) :
    run s (e :: es)
      = ((run (step s e).1 es).1, (step s e).2 ++ (run (step s e).1 es).2) :=
  rfl

lemma resCount_append (i : Nat) (a b : List Output) :
    resCount i (a ++ b) = resCount i a + resCount i b := by
  induction a with
  | nil => simp [resCount]
  | cons o rest ih =>
      cases o with
      | resolved j r => simp [resCount, ih]; omega
      | discarded j => simp [resCount, ih]

lemma wf_step (s : SessionState) (e : Event) (h : WF s) : WF (step s e).1 := by
  obtain ⟨hnd, hsub⟩ := h
  cases e with
  | send a =>
      simp only [step]
      split
      · next hc =>
          refine ⟨?_, ?_⟩
          · rw [List.nodup_append]
            refine ⟨hnd, List.nodup_singleton a, ?_⟩
            intro x hx hx'
            rw [List.mem_singleton] at hx'
            subst hx'
            exact hc.2 (hsub x hx)
          · intro j hj
            rw [List.mem_append, List.mem_singleton] at hj
            rcases hj with hj | rfl
            · exact List.mem_cons_of_mem _ (hsub j hj)
            · exact List.mem_cons_self _ _
      · exact ⟨hnd, hsub⟩
  | response a pl =>
      simp only [step]
      split
      · exact ⟨hnd.erase a, fun j hj => hsub j (List.mem_of_mem_erase hj)⟩
      · exact ⟨hnd, hsub⟩
  | timeout a =>
      simp only [step]
      split
      · exact ⟨hnd.erase a, fun j hj => hsub j (List.mem_of_mem_erase hj)⟩
      · exact ⟨hnd, hsub⟩
  | close => refine ⟨?_, ?_⟩ <;> simp [step]
  | initStart =>
      simp only [step]
      split
      · exact ⟨hnd, hsub⟩
      · exact ⟨hnd, hsub⟩
  | initOk =>
      simp only [step]
      split
      · exact ⟨hnd, hsub⟩
      · exact ⟨hnd, hsub⟩

lemma resCount_close_outputs (i : Nat) (l : List Nat) :
    resCount i (l.map fun j => Output.resolved j Res.connectionClosed)
      = l.count i := by
  induction l with
  | nil => rfl
  | cons a l ih =>
      by_cases h : a = i
      · subst h; simp [resCount, List.count_cons, ih]; omega
      · simp [resCount, List.count_cons, ih, h]

lemma potential_le_one (i : Nat) (s : SessionState) (h : WF s) :
    potential i s ≤ 1 := by
  unfold potential
  by_cases hp : i ∈ s.pending
  · have hu : i ∈ s.used := h.2 i hp
    simp [hp, hu]
  · simp only [hp, if_false]
    by_cases hu : i ∈ s.used <;> simp [hu]

lemma step_potential (s : SessionState) (h : WF s) (e : Event) (i : Nat) :
    resCount i (step s e).2 + potential i (step s e).1 ≤ potential i s := by
  obtain ⟨hnd, hsub⟩ := h
  cases e with
  | send a =>
      simp only [step]
      split
      · next hc =>
          by_cases hia : i = a
          · subst hia
            have hiu : i ∉ s.used := hc.2
            have hip : i ∉ s.pending := fun hp => hiu (hsub i hp)
            simp [resCount, potential, hip, hiu]
          · simp [resCount, potential, List.mem_append, List.mem_cons, hia]
      · simp [resCount]
  | response a pl =>
      simp only [step]
      split
      · next hc =>
          by_cases hia : i = a
          · subst hia
            have hiu : i ∈ s.used := hsub i hc
            have hni : i ∉ s.pending.erase i := by
              intro hmem
              exact absurd ((hnd.mem_erase_iff).1 hmem).1 (by simp)
            simp [resCount, potential, hc, hiu, hni]
          · have hme : i ∈ s.pending.erase a ↔ i ∈ s.pending :=
              List.mem_erase_of_ne hia
            simp [resCount, potential, hme, Ne.symm hia]
      · simp [resCount, potential]
  | timeout a =>
      simp only [step]
      split
      · next hc =>
          by_cases hia : i = a
          · subst hia
            have hiu : i ∈ s.used := hsub i hc
            have hni : i ∉ s.pending.erase i := by
              intro hmem
              exact absurd ((hnd.mem_erase_iff).1 hmem).1 (by simp)
            simp [resCount, potential, hc, hiu, hni]
          · have hme : i ∈ s.pending.erase a ↔ i ∈ s.pending :=
              List.mem_erase_of_ne hia
            simp [resCount, potential, hme, Ne.symm hia]
      · simp [resCount, potential]
  | close =>
      simp only [step]
      rw [resCount_close_outputs]
      by_cases hp : i ∈ s.pending
      · have hu : i ∈ s.used := hsub i hp
        have hc1 : s.pending.count i = 1 := List.count_eq_one_of_mem hnd hp
        simp [potential, hp, hu, hc1]
      · have hc0 : s.pending.count i = 0 := List.count_eq_zero.2 hp
        simp [potential, hp, hc0]
  | initStart =>
      simp only [step]
      split <;> simp [resCount, potential]
  | initOk =>
      simp only [step]
      split <;> simp [resCount, potential]

lemma run_potential (i : Nat) :
    ∀ (evs : List Event) (s : SessionState), WF s →
    resCount i (run s evs).2 + potential i (run s evs).1 ≤ potential i s := by
  intro evs
  induction evs with
  | nil => intro s _; simp [run, resCount]
  | cons e es ih =>
      intro s h
      have h1 := step_potential s h e i
      have h2 := ih (step s e).1 (wf_step s e h)
      have h3 : resCount i (run s (e :: es)).2
          = resCount i (step s e).2 + resCount i (run (step s e).1 es).2 := by
        rw [run_cons]; exact resCount_append i _ _
      have h4 : (run s (e :: es)).1 = (run (step s e).1 es).1 := rfl
      rw [h3, h4]
      omega

lemma step_phase_ready (s : SessionState) (e : Event) (he : e ≠ Event.initOk) :
    (step s e).1.phase = Phase.ready → s.phase = Phase.ready := by
  cases e with
  | send a => simp only [step]; split <;> simp
  | response a pl => simp only [step]; split <;> simp
  | timeout a => simp only [step]; split <;> simp
  | close => simp only [step]; intro h; exact absurd h (by simp)
  | initStart => simp only [step]; split <;> simp
  | initOk => exact absurd rfl he

lemma run_ready_initOk :
    ∀ (evs : List Event) (s : SessionState), s.phase ≠ Phase.ready →
      (run s evs).1.phase = Phase.ready → Event.initOk ∈ evs := by
  intro evs
  induction evs with
  | nil => intro s h hr; exact absurd hr h
  | cons e es ih =>
      intro s h hr
      by_cases he : e = Event.initOk
      · subst he; exact List.mem_cons_self _ _
      · have h' : (step s e).1.phase ≠ Phase.ready :=
          fun hc => h (step_phase_ready s e he hc)
        exact List.mem_cons_of_mem _ (ih (step s e).1 h' hr)

lemma run_matching_responses :
    ∀ (pairs : List (Nat × Outcome)) (s : SessionState), WF s →
      (pairs.map Prod.fst).Nodup →
      (∀ p ∈ pairs, p.1 ∈ s.pending) →
      (run s (pairs.map fun p => Event.response p.1 p.2)).2
        = pairs.map fun p => Output.resolved p.1 (Res.response p.2) := by
  intro pairs
  induction pairs with
  | nil => intro s _ _ _; rfl
  | cons p ps ih =>
      intro s hwf hnd hmem
      have hp : p.1 ∈ s.pending := hmem p (List.mem_cons_self _ _)
      have hnd' : (p.1 :: ps.map Prod.fst).Nodup := by simpa using hnd
      have hhd : p.1 ∉ ps.map Prod.fst := (List.nodup_cons.1 hnd').1
      have htl : (ps.map Prod.fst).Nodup := (List.nodup_cons.1 hnd').2
      have hstep : step s (Event.response p.1 p.2)
          = ({ s with pending := s.pending.erase p.1 },
             [Output.resolved p.1 (Res.response p.2)]) := by
        simp [step, hp]
      have hwf' : WF { s with pending := s.pending.erase p.1 } :=
        ⟨hwf.1.erase _, fun j hj => hwf.2 j (List.mem_of_mem_erase hj)⟩
      have hmem' : ∀ q ∈ ps, q.1 ∈ ({ s with pending := s.pending.erase p.1 } :
          SessionState).pending := by
        intro q hq
        have hne : q.1 ≠ p.1 := by
          intro hcontra
          exact hhd (hcontra ▸ List.mem_map_of_mem Prod.fst hq)
        exact (List.mem_erase_of_ne hne).2 (hmem q (List.mem_cons_of_mem _ hq))
      rw [List.map_cons, run_cons, hstep]
      simp only [List.singleton_append, List.map_cons]
      rw [ih _ hwf' htl hmem']

lemma callTrace_pending :
    ∀ (k n : Nat) (rs : List Res) (s : SessionState),
      s.phase = Phase.ready → s.pending = [] →
      (∀ m, n ≤ m → m ∉ s.used) →
      ∀ j, ((run s ((callTrace k n rs).take j)).1.pending).length ≤ 1 := by
  intro k
  induction k with
  | zero =>
      intro n rs s h1 h2 h3 j
      cases rs <;> simp [callTrace, run, h2]
  | succ k ih =>
      intro n rs s h1 h2 h3 j
      cases rs with
      | nil => simp [callTrace, run, h2]
      | cons r rs =>
          have hn : n ∉ s.used := h3 n le_rfl
          match j with
          | 0 => simp [run, h2]
          | 1 => simp [callTrace, run_cons, run_nil, step, h1, hn, h2]
          | Nat.succ (Nat.succ j) =>
              have htake : (callTrace (Nat.succ k) n (r :: rs)).take (j + 2)
                  = Event.send n :: resolveEvt n r ::
                    ((if r.isResponse then callTrace k (n + 1) rs
                      else []).take j) := by
                simp [callTrace]
              rw [htake, run_cons, run_cons]
              cases r with
              | response pl =>
                  simp only [resolveEvt, Res.isResponse, if_true]
                  refine ih (n + 1) rs _ ?_ ?_ ?_ j
                  · simp [step, h1, hn, h2]
                  · simp [step, h1, hn, h2]
                  · intro m hm
                    simp only [step, h1, hn]
                    simp [h2, List.mem_cons]
                    exact ⟨by omega, h3 m (by omega)⟩
              | requestTimeout =>
                  simp [resolveEvt, Res.isResponse, run_nil, step, h1, hn, h2]
              | connectionClosed =>
                  simp [resolveEvt, Res.isResponse, run_nil, step, h1, hn, h2]

lemma progTrace_pending (r0 : Res) (rs : List Res) (j : Nat) :
    ((run initialState ((progTrace r0 rs).take j)).1.pending).length ≤ 1 := by
  cases r0 with
  | response pl =>
      match j with
      | 0 => simp [run, initialState]
      | 1 => simp [progTrace, run_cons, run_nil, step, initialState]
      | 2 => simp [progTrace, run_cons, run_nil, step, initialState]
      | 3 =>
          simp [progTrace, resolveEvt, Res.isResponse, run_cons, run_nil,
                step, initialState]
      | Nat.succ (Nat.succ (Nat.succ (Nat.succ j))) =>
          have htake : (progTrace (Res.response pl) rs).take (j + 4)
              = Event.initStart :: Event.send 0 :: Event.response 0 pl ::
                Event.initOk ::
                ((callTrace (programOps.length - 1) 1 rs).take j) := by
            simp [progTrace, resolveEvt, Res.isResponse]
          rw [htake, run_cons, run_cons, run_cons, run_cons]
          refine callTrace_pending (programOps.length - 1) 1 rs _ ?_ ?_ ?_ j
          · simp [step, initialState]
          · simp [step, initialState]
          · intro m hm
            simp [step, initialState]
            omega
  | requestTimeout =>
      match j with
      | 0 => simp [run, initialState]
      | 1 => simp [progTrace, run_cons, run_nil, step, initialState]
      | 2 => simp [progTrace, run_cons, run_nil, step, initialState]
      | Nat.succ (Nat.succ (Nat.succ j)) =>
          simp [progTrace, resolveEvt, Res.isResponse, run_cons, run_nil,
                step, initialState]
  | connectionClosed =>
      match j with
      | 0 => simp [run, initialState]
      | 1 => simp [progTrace, run_cons, run_nil, step, initialState]
      | 2 => simp [progTrace, run_cons, run_nil, step, initialState]
      | Nat.succ (Nat.succ (Nat.succ j)) =>
          simp [progTrace, resolveEvt, Res.isResponse, run_cons, run_nil,
                step, initialState]

lemma sendIds_callTrace :
    ∀ (k n : Nat) (rs : List Res),
      ∃ j, j ≤ k ∧ sendIds (callTrace k n rs) = List.range' n j := by
  intro k
  induction k with
  | zero =>
      intro n rs
      exact ⟨0, le_rfl, by cases rs <;> rfl⟩
  | succ k ih =>
      intro n rs
      cases rs with
      | nil => exact ⟨0, Nat.zero_le _, rfl⟩
      | cons r rs =>
          cases r with
          | response pl =>
              obtain ⟨j, hj, hs⟩ := ih (n + 1) rs
              refine ⟨j + 1, by omega, ?_⟩
              rw [List.range'_succ]
              simp [callTrace, sendIds, resolveEvt, Res.isResponse, hs]
          | requestTimeout =>
              exact ⟨1, by omega, by simp [callTrace, sendIds, resolveEvt,
                Res.isResponse, List.range'_succ]⟩
          | connectionClosed =>
              exact ⟨1, by omega, by simp [callTrace, sendIds, resolveEvt,
                Res.isResponse, List.range'_succ]⟩

lemma sendIds_progTrace (r0 : Res) (rs : List Res) :
    ∃ m, m ≤ programOps.length
      ∧ sendIds (progTrace r0 rs) = List.range m := by
  cases r0 with
  | response pl =>
      obtain ⟨j, hj, hs⟩ := sendIds_callTrace (programOps.length - 1) 1 rs
      refine ⟨j + 1, ?_, ?_⟩
      · simp [programOps] at hj ⊢; omega
      · rw [List.range_eq_range', List.range'_succ]
        simp [progTrace, sendIds, resolveEvt, Res.isResponse, hs]
  | requestTimeout =>
      exact ⟨1, by simp [programOps], by simp [progTrace, sendIds, resolveEvt,
        Res.isResponse, List.range_eq_range', List.range'_succ]⟩
  | connectionClosed =>
      exact ⟨1, by simp [programOps], by simp [progTrace, sendIds, resolveEvt,
        Res.isResponse, List.range_eq_range', List.range'_succ]⟩

lemma wf_run : ∀ (evs : List Event) (s : SessionState), WF s → WF (run s evs).1 := by
  intro evs
  induction evs with
  | nil => intro s h; exact h
  | cons e es ih => intro s h; exact ih (step s e).1 (wf_step s e h)

/-! ## Claims -/

/-- C1: every PendingRequest is resolved exactly once, by whichever of a
matching Response, its timeout, or connection closure occurs first; any
later event for the same correlation id is a no-op (over any event
sequence the session emits at most one resolution per id); and closing
the Transport while M calls are outstanding resolves exactly those M
ids with ConnectionClosed, once each, leaving none outstanding. -/
theorem exactly_once_resolution (s : SessionState) (h : WF s)
    (evs : List Event) (i : Nat) :
    resCount i (run s evs).2 ≤ 1
  ∧ (step s Event.close).2
      = s.pending.map (fun j => Output.resolved j Res.connectionClosed)
  ∧ (step s Event.close).1.pending = []
  ∧ (∀ j ∈ s.pending, resCount j (step s Event.close).2 = 1) := by
  refine ⟨?_, rfl, rfl, ?_⟩
  · have h1 := run_potential i evs s h
    have h2 := potential_le_one i s h
    omega
  · intro j hj
    have : resCount j (step s Event.close).2 = s.pending.count j := by
      simp only [step]
      exact resCount_close_outputs j s.pending
    rw [this]
    exact List.count_eq_one_of_mem h.1 hj

theorem exactly_once_resolution_witness :
    WF ⟨Phase.ready, [5, 7], [5, 7]⟩
  ∧ (resCount 5 (run ⟨Phase.ready, [5, 7], [5, 7]⟩
        [Event.response 5 (Outcome.ok "a"), Event.timeout 5, Event.close]).2 ≤ 1
     ∧ (step ⟨Phase.ready, [5, 7], [5, 7]⟩ Event.close).2
         = [5, 7].map (fun j => Output.resolved j Res.connectionClosed)
     ∧ (step ⟨Phase.ready, [5, 7], [5, 7]⟩ Event.close).1.pending = []
     ∧ (∀ j ∈ ([5, 7] : List Nat),
          resCount j (step ⟨Phase.ready, [5, 7], [5, 7]⟩ Event.close).2 = 1)) :=
  ⟨by decide,
   exactly_once_resolution ⟨Phase.ready, [5, 7], [5, 7]⟩ (by decide)
     [Event.response 5 (Outcome.ok "a"), Event.timeout 5, Event.close] 5⟩

/-- C2: for a set of concurrently outstanding calls with distinct
correlation ids, each resolves with exactly the Response whose id
matches its own, for every interleaving of response arrivals (the
arrival list `pairs` is arbitrary): the emitted resolutions pair every
id with its own payload, so correlation id, not arrival order,
determines which caller resumes. -/
theorem response_correlation (s : SessionState) (h : WF s)
    (pairs : List (Nat × Outcome)) (hnd : (pairs.map Prod.fst).Nodup)
    (hmem : ∀ p ∈ pairs, p.1 ∈ s.pending) :
    (run s (pairs.map fun p => Event.response p.1 p.2)).2
      = pairs.map fun p => Output.resolved p.1 (Res.response p.2) :=
  run_matching_responses pairs s h hnd hmem

theorem response_correlation_witness :
    WF ⟨Phase.ready, [1, 2, 3], [1, 2, 3]⟩
  ∧ (([((2 : Nat), Outcome.ok "b"), (1, Outcome.ok "a")].map Prod.fst).Nodup)
  ∧ (∀ p ∈ [((2 : Nat), Outcome.ok "b"), (1, Outcome.ok "a")],
       p.1 ∈ (⟨Phase.ready, [1, 2, 3], [1, 2, 3]⟩ : SessionState).pending)
  ∧ (run ⟨Phase.ready, [1, 2, 3], [1, 2, 3]⟩
        ([((2 : Nat), Outcome.ok "b"), (1, Outcome.ok "a")].map
          fun p => Event.response p.1 p.2)).2
      = [((2 : Nat), Outcome.ok "b"), (1, Outcome.ok "a")].map
          fun p => Output.resolved p.1 (Res.response p.2) :=
  ⟨by decide, by decide, by decide,
   response_correlation ⟨Phase.ready, [1, 2, 3], [1, 2, 3]⟩ (by decide)
     [((2 : Nat), Outcome.ok "b"), (1, Outcome.ok "a")] (by decide) (by decide)⟩

/-- C3: a session becomes Ready only after the handshake completes (any
event sequence reaching Ready contains the handshake-completion event);
a call attempted while the session is not Ready fails with a defined
error rather than proceeding; and the program's first session operation
is the handshake (`initialize`), ahead of list resources, list tools
and call tool. -/
theorem handshake_before_ready (s t : SessionState) (i : Nat)
    (h : s.phase ≠ Phase.ready) (ht : t.phase ≠ Phase.ready)
    (evs : List Event) :
    ((run s evs).1.phase = Phase.ready → Event.initOk ∈ evs)
  ∧ (∃ e : CallError, attemptCall t i = Except.error e)
  ∧ programOps.head? = some Op.handshake := by
  refine ⟨run_ready_initOk evs s h, ?_, rfl⟩
  cases hp : t.phase with
  | ready => exact absurd hp ht
  | unconnected => exact ⟨CallError.sessionNotReady, by simp [attemptCall, hp]⟩
  | initializing => exact ⟨CallError.sessionNotReady, by simp [attemptCall, hp]⟩
  | closed => exact ⟨CallError.sessionClosed, by simp [attemptCall, hp]⟩

theorem handshake_before_ready_witness :
    initialState.phase ≠ Phase.ready
  ∧ (⟨Phase.initializing, [], []⟩ : SessionState).phase ≠ Phase.ready
  ∧ (((run initialState [Event.initStart]).1.phase = Phase.ready →
        Event.initOk ∈ [Event.initStart])
     ∧ (∃ e : CallError,
          attemptCall ⟨Phase.initializing, [], []⟩ 1 = Except.error e)
     ∧ programOps.head? = some Op.handshake) :=
  ⟨by decide, by decide,
   handshake_before_ready initialState ⟨Phase.initializing, [], []⟩ 1
     (by decide) (by decide) [Event.initStart]⟩

/-- C4: a call whose deadline elapses without a Response resolves with
RequestTimeout; its PendingRequest is removed from the outstanding map
while every other outstanding id, the lifecycle phase and the issued-id
record are untouched, so the session remains usable; the deadline here
is the caller-supplied 60-second read timeout of client.py. -/
theorem timeout_resolution (s : SessionState) (h : WF s) (i j : Nat)
    (hi : i ∈ s.pending) (hj : j ≠ i) :
    (step s (Event.timeout i)).2 = [Output.resolved i Res.requestTimeout]
  ∧ i ∉ (step s (Event.timeout i)).1.pending
  ∧ (j ∈ (step s (Event.timeout i)).1.pending ↔ j ∈ s.pending)
  ∧ (step s (Event.timeout i)).1.phase = s.phase
  ∧ (step s (Event.timeout i)).1.used = s.used
  ∧ runSessionConfig.readTimeoutSeconds = 60 := by
  refine ⟨by simp [step, hi], ?_, ?_, by simp [step, hi], by simp [step, hi], rfl⟩
  · simp only [step, if_pos hi]
    intro hmem
    exact absurd ((h.1.mem_erase_iff).1 hmem).1 (by simp)
  · simp only [step, if_pos hi]
    exact List.mem_erase_of_ne hj

theorem timeout_resolution_witness :
    WF ⟨Phase.ready, [1, 2], [1, 2]⟩
  ∧ (1 : Nat) ∈ ([1, 2] : List Nat)
  ∧ (2 : Nat) ≠ 1
  ∧ ((step ⟨Phase.ready, [1, 2], [1, 2]⟩ (Event.timeout 1)).2
       = [Output.resolved 1 Res.requestTimeout]
     ∧ (1 : Nat) ∉ (step ⟨Phase.ready, [1, 2], [1, 2]⟩ (Event.timeout 1)).1.pending
     ∧ ((2 : Nat) ∈ (step ⟨Phase.ready, [1, 2], [1, 2]⟩ (Event.timeout 1)).1.pending
          ↔ (2 : Nat) ∈ ([1, 2] : List Nat))
     ∧ (step ⟨Phase.ready, [1, 2], [1, 2]⟩ (Event.timeout 1)).1.phase = Phase.ready
     ∧ (step ⟨Phase.ready, [1, 2], [1, 2]⟩ (Event.timeout 1)).1.used = [1, 2]
     ∧ runSessionConfig.readTimeoutSeconds = 60) :=
  ⟨by decide, by decide, by decide,
   timeout_resolution ⟨Phase.ready, [1, 2], [1, 2]⟩ (by decide) 1 2
     (by decide) (by decide)⟩

/-- C5: an inbound Response whose id matches no outstanding
PendingRequest — a late Response after a timeout included — is
discarded with a log output, leaving the session state completely
unchanged; handling it is a total step that raises no error. -/
theorem unknown_response_ignored (s : SessionState) (i : Nat)
    (pl : Outcome) (h : i ∉ s.pending) :
    step s (Event.response i pl) = (s, [Output.discarded i]) := by
  simp [step, h]

theorem unknown_response_ignored_witness :
    (9 : Nat) ∉ (⟨Phase.ready, [2], [2, 9]⟩ : SessionState).pending
  ∧ step ⟨Phase.ready, [2], [2, 9]⟩ (Event.response 9 (Outcome.ok "late"))
      = (⟨Phase.ready, [2], [2, 9]⟩, [Output.discarded 9]) :=
  ⟨by decide,
   unknown_response_ignored ⟨Phase.ready, [2], [2, 9]⟩ 9 (Outcome.ok "late")
     (by decide)⟩

/-- C6: a server-initiated sampling request is answered with exactly one
reply carrying the same id as the inbound request; with the program's
session configuration (the sampling callback argument is commented out,
so none is registered) that reply is the "not supported" error
Response.  `dispatchInbound` is a total function returning one reply,
so the request is never left unanswered. -/
theorem sampling_not_supported (i : Nat) (p : CreateMessageRequestParams) :
    dispatchInbound runSessionConfig.samplingCallback i p
      = InboundReply.errorNotSupported i
  ∧ replyId (dispatchInbound runSessionConfig.samplingCallback i p) = i :=
  ⟨rfl, rfl⟩

/-- C7: for every wire frame that decodes successfully, re-encoding the
decoded message reproduces the frame exactly (all observable fields
preserved), and the decoded shape is exactly the shape the frame
announces through presence/absence of its id and method fields. -/
theorem codec_round_trip (w : Wire) (m : Message) (h : decode w = some m) :
    encode m = w ∧ wireShape w = some (shapeOf m) := by
  obtain ⟨wid, wm, wp, wr, we⟩ := w
  cases wm with
  | some mth =>
      cases wid with
      | some i =>
          simp only [decode] at h
          split_ifs at h with hc
          obtain ⟨hr, he⟩ := hc
          cases h
          subst hr; subst he
          exact ⟨rfl, rfl⟩
      | none =>
          simp only [decode] at h
          split_ifs at h with hc
          obtain ⟨hr, he⟩ := hc
          cases h
          subst hr; subst he
          exact ⟨rfl, rfl⟩
  | none =>
      cases wid with
      | some i =>
          simp only [decode] at h
          cases wr with
          | some r =>
              cases we with
              | some e => cases h
              | none =>
                  split_ifs at h with hc
                  cases h
                  subst hc
                  exact ⟨rfl, rfl⟩
          | none =>
              cases we with
              | some e =>
                  split_ifs at h with hc
                  cases h
                  subst hc
                  exact ⟨rfl, rfl⟩
              | none => cases h
      | none => cases h

theorem codec_round_trip_witness :
    decode ⟨some 3, some "tools/call", some "run_command", none, none⟩
      = some (Message.request 3 "tools/call" (some "run_command"))
  ∧ (encode (Message.request 3 "tools/call" (some "run_command"))
       = ⟨some 3, some "tools/call", some "run_command", none, none⟩
     ∧ wireShape ⟨some 3, some "tools/call", some "run_command", none, none⟩
        = some (shapeOf (Message.request 3 "tools/call" (some "run_command")))) :=
  ⟨by decide,
   codec_round_trip ⟨some 3, some "tools/call", some "run_command", none, none⟩
     (Message.request 3 "tools/call" (some "run_command")) (by decide)⟩

/-- C8: the connection is made by starting a subprocess from the command
name "uvx", the fixed argument list, and no environment map, exactly as
`server_params` in client.py states; the subprocess's stdout becomes the
Transport's read end and its stdin the write end, and those two stream
ends are the ones handed to the ClientSession. -/
theorem transport_from_subprocess :
    runSessionConfig.readStream
      = StreamEnd.subprocessStdout server_params.command server_params.args
          server_params.env
  ∧ runSessionConfig.writeStream
      = StreamEnd.subprocessStdin server_params.command server_params.args
          server_params.env
  ∧ server_params.command = "uvx"
  ∧ server_params.args
      = ["--quiet", "--refresh", "git+https://github.com/emsi/slow-mcp",
         "--transport", "stdio"]
  ∧ server_params.env = none :=
  ⟨rfl, rfl, rfl, rfl, rfl⟩

/-- C9: `handle_sampling_message` is a constant function: any two inputs
produce the identical completion result (role "assistant", text content
"Hello, world! from model", model "gpt-3.5-turbo", stop reason
"endTurn"), so its output reveals nothing about the server-supplied
request. -/
theorem sampling_handler_constant (m1 m2 : CreateMessageRequestParams) :
    handle_sampling_message m1 = handle_sampling_message m2
  ∧ handle_sampling_message m1
      = { role := "assistant", contentType := "text",
          text := "Hello, world! from model", model := "gpt-3.5-turbo",
          stopReason := "endTurn" } :=
  ⟨rfl, rfl⟩

/-- C10: `run()` issues its session operations strictly sequentially —
handshake (`initialize`), list resources, list tools, call tool — each
awaited to completion before the next is sent: along every prefix of
every execution trace of the program at most one client-originated
PendingRequest is outstanding, and the ids actually sent form an
initial segment 0,1,…  of the program order. -/
theorem sequential_single_outstanding (r0 : Res) (rs : List Res) (j : Nat) :
    ((run initialState ((progTrace r0 rs).take j)).1.pending).length ≤ 1
  ∧ (∃ m, m ≤ programOps.length
       ∧ sendIds (progTrace r0 rs) = List.range m) :=
  ⟨progTrace_pending r0 rs j, sendIds_progTrace r0 rs⟩

end MCPClient
